import Mathlib

/-!
Verification of the Snoozeng simulation core: event bus, deferred events,
physics world synchronization, particle pool and emitter lifecycle, and the
end-of-tick garbage collector.  Definitions are shallow embeddings of the
Rust sources under src/; theorems settle the specification claims.
-/

set_option linter.unusedVariables false

namespace Snoozeng

/-- Entity handle of the external `hecs` entity store (index + generation
bits), used in this core only as an opaque correlation key. -/
abbrev Entity := Nat

/-- Collider handle of the physics engine (arena index), opaque here. -/
abbrev ColliderHandle := Nat

/-- Tagged event variant, from `GameEvent` in src/src/event.rs. -/
inductive GameEvent (E : Type) where
  | delete (e : Entity)
  | playBackgroundMusic (track : String)
  | playSound (sound : String)
  | proximityEvent (a b : ColliderHandle)
  | contactEvent (a b : ColliderHandle)
  | gameEvent (g : E)
  deriving DecidableEq

/-- Modelled from the spec: the `shrev::EventChannel` wrapped by `EventQueue`
(src/src/event.rs) is an external crate whose sources are not part of the
repository.  Per spec §4.1 it is an ordered broadcast log: writes append at
the next sequence number, the cursor of a newly registered reader starts at the
current head, and a read yields every event past the cursor in publish order
and advances the cursor to the head. -/
structure EventChannel (E : Type) where
  log : List E
  deriving DecidableEq

def EventChannel.new {E : Type} : EventChannel E := ⟨[]⟩

/-- Append a single event at the head of the log (`single_write`). -/
def EventChannel.single_write {E : Type} (c : EventChannel E) (e : E) : EventChannel E :=
  ⟨c.log ++ [e]⟩

/-- Append a whole vector of events in order (`drain_vec_write`). -/
def EventChannel.drain_vec_write {E : Type} (c : EventChannel E) (es : List E) : EventChannel E :=
  ⟨c.log ++ es⟩

/-- Reader cursor: position into the log (sequence number already consumed). -/
abbrev ReaderId := Nat

/-- Register a reader: its cursor starts at the current head. -/
def EventChannel.register_reader {E : Type} (c : EventChannel E) : ReaderId :=
  c.log.length

/-- Read every event past the cursor, in publish order, and advance the
cursor to the current head. -/
def EventChannel.read {E : Type} (c : EventChannel E) (r : ReaderId) :
    List E × ReaderId :=
  (c.log.drop r, c.log.length)

/-- Modelled from the spec: `crate::core::timer::Timer` (core/timer.rs) is
not among the provided sources.  Spec §6 gives the capability `tick(dt)`,
`finished() -> bool`, `reset()`, and §4.1/§8 fix the semantics used here: a
timer is finished exactly when its accumulated elapsed time has reached or
exceeded its configured duration. -/
structure Timer where
  elapsed : ℚ
  duration : ℚ
  deriving DecidableEq

def Timer.tick (t : Timer) (dt : ℚ) : Timer :=
  { t with elapsed := t.elapsed + dt }

def Timer.finished (t : Timer) : Bool :=
  decide (t.duration ≤ t.elapsed)

def Timer.reset (t : Timer) : Timer :=
  { t with elapsed := 0 }

/-- Event queue, from `EventQueue` in src/src/event.rs.  The Rust field
`deferred_events: Option<Vec<_>>` is `Some` except transiently inside
`update_deferred` (a `take`/put-back ownership idiom), so it is embedded as
a plain list. -/
structure EventQueue (E : Type) where
  chan : EventChannel (GameEvent E)
  deferred_events : List (GameEvent E × Timer)
  deriving DecidableEq

def EventQueue.new {E : Type} : EventQueue E :=
  ⟨EventChannel.new, []⟩

/-- Drain a vector of events into storage (src/src/event.rs line 49). -/
def EventQueue.drain_vec_write {E : Type} (q : EventQueue E)
    (events : List (GameEvent E)) : EventQueue E :=
  { q with chan := q.chan.drain_vec_write events }

/-- Write a single event into storage (src/src/event.rs line 54). -/
def EventQueue.single_write {E : Type} (q : EventQueue E)
    (event : GameEvent E) : EventQueue E :=
  { q with chan := q.chan.single_write event }

def EventQueue.read {E : Type} (q : EventQueue E) (r : ReaderId) :
    List (GameEvent E) × ReaderId :=
  q.chan.read r

def EventQueue.register_reader {E : Type} (q : EventQueue E) : ReaderId :=
  q.chan.register_reader

/-- Stage a deferred event (src/src/event.rs line 66). -/
def EventQueue.add_deferred_event {E : Type} (q : EventQueue E)
    (event : GameEvent E) (timer : Timer) : EventQueue E :=
  { q with deferred_events := q.deferred_events ++ [(event, timer)] }

/-- Advance all staged countdowns by `dt`, move the finished ones out of the
staging list and write them into the channel, keeping relative order
(src/src/event.rs lines 73–84; `partition` = order-preserving split). -/
def EventQueue.update_deferred {E : Type} (q : EventQueue E) (dt : ℚ) :
    EventQueue E :=
  let events := q.deferred_events.map (fun p => (p.1, p.2.tick dt))
  let to_send := events.filter (fun p => p.2.finished)
  let not_yet := events.filter (fun p => !p.2.finished)
  { chan := q.chan.drain_vec_write (to_send.map Prod.fst),
    deferred_events := not_yet }

/-! ### Reader/publisher interleavings (claim C1) -/

/-- One interaction with the event queue, as seen by one fixed registered
reader: a single publish, a batched publish, or a read by this reader. -/
inductive QueueOp (E : Type) where
  | write (e : GameEvent E)
  | drainWrite (es : List (GameEvent E))
  | readNow
  deriving DecidableEq

/-- Events published during a trace, in publish order. -/
def publishedEvents {E : Type} : List (QueueOp E) → List (GameEvent E)
  | [] => []
  | QueueOp.write e :: t => e :: publishedEvents t
  | QueueOp.drainWrite es :: t => es ++ publishedEvents t
  | QueueOp.readNow :: t => publishedEvents t

/-- State of a run: the queue, the cursor of the fixed reader, and everything
this reader has received so far. -/
structure ReaderRun (E : Type) where
  q : EventQueue E
  cursor : ReaderId
  received : List (GameEvent E)

def stepOp {E : Type} (s : ReaderRun E) : QueueOp E → ReaderRun E
  | QueueOp.write e => { s with q := s.q.single_write e }
  | QueueOp.drainWrite es => { s with q := s.q.drain_vec_write es }
  | QueueOp.readNow =>
      let r := s.q.read s.cursor
      { s with cursor := r.2, received := s.received ++ r.1 }

def runOps {E : Type} (s : ReaderRun E) (ops : List (QueueOp E)) : ReaderRun E :=
  ops.foldl stepOp s

/-- Register a fresh reader on the queue: cursor at the current head,
nothing received yet. -/
def ReaderRun.register {E : Type} (q : EventQueue E) : ReaderRun E :=
  ⟨q, q.register_reader, []⟩

theorem publishedEvents_append {E : Type} (a b : List (QueueOp E)) :
    publishedEvents (a ++ b) = publishedEvents a ++ publishedEvents b := by
  induction a with
  | nil => simp [publishedEvents]
  | cons op t ih =>
      cases op <;> simp [publishedEvents, ih]

theorem runOps_invariant {E : Type} (ops : List (QueueOp E)) :
    ∀ s : ReaderRun E, s.cursor ≤ s.q.chan.log.length →
      (runOps s ops).q.chan.log = s.q.chan.log ++ publishedEvents ops ∧
      (runOps s ops).cursor ≤ (runOps s ops).q.chan.log.length ∧
      (runOps s ops).received ++ (runOps s ops).q.chan.log.drop (runOps s ops).cursor
        = s.received ++ s.q.chan.log.drop s.cursor ++ publishedEvents ops := by
  induction ops with
  | nil =>
      intro s hs
      exact ⟨by simp [runOps, publishedEvents], hs, by simp [runOps, publishedEvents]⟩
  | cons op t ih =>
      intro s hs
      have hstep : runOps s (op :: t) = runOps (stepOp s op) t := rfl
      cases op with
      | write e =>
          have hc : (stepOp s (QueueOp.write e)).cursor ≤
              (stepOp s (QueueOp.write e)).q.chan.log.length := by
            simp [stepOp, EventQueue.single_write, EventChannel.single_write]
            exact hs.trans (Nat.le_succ _)
          obtain ⟨h1, h2, h3⟩ := ih (stepOp s (QueueOp.write e)) hc
          refine ⟨?_, ?_, ?_⟩
          · rw [hstep, h1]
            simp [stepOp, EventQueue.single_write, EventChannel.single_write,
              publishedEvents]
          · rw [hstep]; exact h2
          · rw [hstep, h3]
            simp only [stepOp, EventQueue.single_write, EventChannel.single_write]
            rw [List.drop_append_of_le_length hs]
            simp [publishedEvents]
      | drainWrite es =>
          have hc : (stepOp s (QueueOp.drainWrite es)).cursor ≤
              (stepOp s (QueueOp.drainWrite es)).q.chan.log.length := by
            simp [stepOp, EventQueue.drain_vec_write, EventChannel.drain_vec_write]
            exact hs.trans (Nat.le_add_right _ _)
          obtain ⟨h1, h2, h3⟩ := ih (stepOp s (QueueOp.drainWrite es)) hc
          refine ⟨?_, ?_, ?_⟩
          · rw [hstep, h1]
            simp [stepOp, EventQueue.drain_vec_write, EventChannel.drain_vec_write,
              publishedEvents]
          · rw [hstep]; exact h2
          · rw [hstep, h3]
            simp only [stepOp, EventQueue.drain_vec_write, EventChannel.drain_vec_write]
            rw [List.drop_append_of_le_length hs]
            simp [publishedEvents]
      | readNow =>
          have hc : (stepOp s QueueOp.readNow).cursor ≤
              (stepOp s QueueOp.readNow).q.chan.log.length := by
            simp [stepOp, EventQueue.read, EventChannel.read]
          obtain ⟨h1, h2, h3⟩ := ih (stepOp s QueueOp.readNow) hc
          refine ⟨?_, ?_, ?_⟩
          · rw [hstep, h1]
            simp [stepOp, publishedEvents]
          · rw [hstep]; exact h2
          · rw [hstep, h3]
            simp [stepOp, EventQueue.read, EventChannel.read, publishedEvents]

/-- C1: for every `EventQueue` and every reader registered via
`register_reader`, any interleaving of publishes (`single_write` /
`drain_vec_write`) and reads yields to that reader exactly the events
published after its registration — each exactly once, in publish order,
independent of when the reads occur — and never an event published before
registration (the initial queue `q0` carries an arbitrary pre-registration
history, none of which is received). -/
theorem eventQueue_reader_receives_exactly_post_registration {E : Type}
    (q0 : EventQueue E) (ops : List (QueueOp E)) :
    (runOps (ReaderRun.register q0) (ops ++ [QueueOp.readNow])).received
      = publishedEvents ops := by
  have hreg : (ReaderRun.register q0).cursor ≤
      (ReaderRun.register q0).q.chan.log.length := by
    simp [ReaderRun.register, EventQueue.register_reader, EventChannel.register_reader]
  obtain ⟨h1, h2, h3⟩ := runOps_invariant (ops ++ [QueueOp.readNow])
    (ReaderRun.register q0) hreg
  have hlast : runOps (ReaderRun.register q0) (ops ++ [QueueOp.readNow])
      = stepOp (runOps (ReaderRun.register q0) ops) QueueOp.readNow := by
    simp [runOps, List.foldl_append]
  have hdrop : (runOps (ReaderRun.register q0) (ops ++ [QueueOp.readNow])).q.chan.log.drop
      (runOps (ReaderRun.register q0) (ops ++ [QueueOp.readNow])).cursor = [] := by
    rw [hlast]
    simp [stepOp, EventQueue.read, EventChannel.read]
  have h3' := h3
  rw [hdrop, List.append_nil] at h3'
  rw [h3']
  simp [ReaderRun.register, EventQueue.register_reader, EventChannel.register_reader,
    publishedEvents_append, publishedEvents]

/-! ### Deferred events (claim C2) -/

/-- Iterated ticks: one `update_deferred` call per element of `dts`. -/
def runDeferred {E : Type} (q : EventQueue E) (dts : List ℚ) : EventQueue E :=
  dts.foldl EventQueue.update_deferred q

theorem EventChannel.drain_vec_write_nil {E : Type} (c : EventChannel E) :
    c.drain_vec_write [] = c := by
  cases c
  simp [EventChannel.drain_vec_write]

theorem runDeferred_no_staged {E : Type} (dts : List ℚ)
    (c : EventChannel (GameEvent E)) :
    runDeferred ⟨c, []⟩ dts = ⟨c, []⟩ := by
  induction dts generalizing c with
  | nil => rfl
  | cons dt rest ih =>
      have h1 : EventQueue.update_deferred (E := E) ⟨c, []⟩ dt = ⟨c, []⟩ := by
        simp [EventQueue.update_deferred, EventChannel.drain_vec_write_nil]
      calc runDeferred (E := E) ⟨c, []⟩ (dt :: rest)
          = runDeferred (EventQueue.update_deferred ⟨c, []⟩ dt) rest := rfl
        _ = runDeferred ⟨c, []⟩ rest := by rw [h1]
        _ = ⟨c, []⟩ := ih c

theorem runDeferred_single_staged {E : Type} (ev : GameEvent E) (d : ℚ)
    (dts : List ℚ) (hnn : ∀ x ∈ dts, 0 ≤ x) :
    ∀ (log0 : List (GameEvent E)) (e0 : ℚ),
      runDeferred ⟨⟨log0⟩, [(ev, ⟨e0, d⟩)]⟩ dts =
        if 1 ≤ dts.length ∧ d ≤ e0 + dts.sum then ⟨⟨log0 ++ [ev]⟩, []⟩
        else ⟨⟨log0⟩, [(ev, ⟨e0 + dts.sum, d⟩)]⟩ := by
  induction dts with
  | nil =>
      intro log0 e0
      simp [runDeferred]
  | cons dt rest ih =>
      intro log0 e0
      have hd : 0 ≤ dt := hnn dt (by simp)
      have hrest : ∀ x ∈ rest, 0 ≤ x := fun x hx => hnn x (by simp [hx])
      have hsum : (0 : ℚ) ≤ rest.sum := List.sum_nonneg hrest
      have hrun : runDeferred (E := E) ⟨⟨log0⟩, [(ev, ⟨e0, d⟩)]⟩ (dt :: rest)
          = runDeferred (EventQueue.update_deferred ⟨⟨log0⟩, [(ev, ⟨e0, d⟩)]⟩ dt) rest := rfl
      by_cases hf : d ≤ e0 + dt
      · have hupd : EventQueue.update_deferred (E := E) ⟨⟨log0⟩, [(ev, ⟨e0, d⟩)]⟩ dt
            = ⟨⟨log0 ++ [ev]⟩, []⟩ := by
          simp [EventQueue.update_deferred, Timer.tick, Timer.finished,
            EventChannel.drain_vec_write, hf]
        rw [hrun, hupd, runDeferred_no_staged]
        have hcond : 1 ≤ (dt :: rest).length ∧ d ≤ e0 + (dt :: rest).sum := by
          constructor
          · simp
          · simp only [List.sum_cons]
            have := hf
            linarith
        rw [if_pos hcond]
      · have hupd : EventQueue.update_deferred (E := E) ⟨⟨log0⟩, [(ev, ⟨e0, d⟩)]⟩ dt
            = ⟨⟨log0⟩, [(ev, ⟨e0 + dt, d⟩)]⟩ := by
          simp [EventQueue.update_deferred, Timer.tick, Timer.finished,
            EventChannel.drain_vec_write, hf]
        rw [hrun, hupd, ih hrest log0 (e0 + dt)]
        by_cases hc : 1 ≤ rest.length ∧ d ≤ e0 + dt + rest.sum
        · rw [if_pos hc, if_pos]
          refine ⟨by simp, ?_⟩
          simp only [List.sum_cons]
          linarith [hc.2]
        · rw [if_neg hc, if_neg]
          · simp only [List.sum_cons]
            congr 2
            ring_nf
          · rintro ⟨h1, h2⟩
            simp only [List.sum_cons] at h2
            rcases rest with _ | ⟨r, rs⟩
            · simp at h2
              exact hf (by linarith)
            · exact hc ⟨by simp, by linarith⟩

/-- C2: each `update_deferred(dt)` call ticks every staged countdown by `dt`
and appends to the log exactly the staged events whose timer has finished,
in insertion order, removing them from staging (first conjunct, for an
arbitrary queue); and a staged event with duration `d` and fresh timer is in
the log after `k` calls with nonnegative deltas `dts.take k` exactly when
the accumulated elapsed time has reached `d`, so it is promoted exactly
once, on the first call where the accumulated time reaches or exceeds the
duration and never earlier (second conjunct). -/
theorem update_deferred_ticks_and_promotes_on_first_elapsed {E : Type}
    (q : EventQueue E) (dt : ℚ)
    (ev : GameEvent E) (d : ℚ) (log0 : List (GameEvent E))
    (dts : List ℚ) (hnn : ∀ x ∈ dts, 0 ≤ x) (k : Nat) (hk : k ≤ dts.length) :
    ((q.update_deferred dt).deferred_events
        = (q.deferred_events.map (fun p => (p.1, p.2.tick dt))).filter
            (fun p => !p.2.finished)
      ∧ (q.update_deferred dt).chan.log
        = q.chan.log ++ ((q.deferred_events.map (fun p => (p.1, p.2.tick dt))).filter
            (fun p => p.2.finished)).map Prod.fst)
    ∧ (runDeferred ⟨⟨log0⟩, [(ev, ⟨0, d⟩)]⟩ (dts.take k)).chan.log
        = log0 ++ (if 1 ≤ k ∧ d ≤ (dts.take k).sum then [ev] else []) := by
  constructor
  · exact ⟨rfl, rfl⟩
  · have htake : ∀ x ∈ dts.take k, 0 ≤ x := fun x hx => hnn x (List.mem_of_mem_take hx)
    have hlen : (dts.take k).length = k := by
      rw [List.length_take]
      omega
    rw [runDeferred_single_staged ev d (dts.take k) htake log0 0]
    rw [hlen]
    by_cases hc : 1 ≤ k ∧ d ≤ (dts.take k).sum
    · rw [if_pos ⟨hc.1, by linarith [hc.2]⟩, if_pos hc]
    · rw [if_neg, if_neg hc]
      · simp
      · rintro ⟨h1, h2⟩
        exact hc ⟨h1, by linarith⟩

/-- Witness for C2 at concrete inputs: duration 2, three unit ticks, read
after two calls: the event is in the log exactly at the second call. -/
theorem update_deferred_ticks_and_promotes_on_first_elapsed_witness :
    ((EventQueue.update_deferred (E := Unit) EventQueue.new 1).deferred_events
        = (((EventQueue.new (E := Unit)).deferred_events.map
            (fun p => (p.1, p.2.tick 1))).filter (fun p => !p.2.finished))
      ∧ (EventQueue.update_deferred (E := Unit) EventQueue.new 1).chan.log
        = (EventQueue.new (E := Unit)).chan.log
          ++ (((EventQueue.new (E := Unit)).deferred_events.map
            (fun p => (p.1, p.2.tick 1))).filter (fun p => p.2.finished)).map Prod.fst)
    ∧ (runDeferred ⟨⟨[]⟩, [(GameEvent.playSound (E := Unit) "x", ⟨0, 2⟩)]⟩
          (([1, 1, 1] : List ℚ).take 2)).chan.log
        = [] ++ (if 1 ≤ 2 ∧ (2 : ℚ) ≤ (([1, 1, 1] : List ℚ).take 2).sum
            then [GameEvent.playSound (E := Unit) "x"] else []) :=
  update_deferred_ticks_and_promotes_on_first_elapsed
    EventQueue.new 1 (GameEvent.playSound "x") 2 [] [1, 1, 1]
    (by norm_num) 2 (by norm_num)

/-! ### Physics world (claims C3, C4, C5), from src/src/core/physics/mod.rs -/

/-- Planar vector (`Vector2f`), with exact coordinates standing in for `f32`. -/
abbrev Vector2f := ℚ × ℚ

/-- Kinetic class of a rigid body (`rapier2d::dynamics::BodyStatus`). -/
inductive BodyStatus where
  | static
  | kinematic
  | dynamic
  deriving DecidableEq

/-- Collision filter groups (`rapier2d::geometry::InteractionGroups`), opaque
membership/filter masks. -/
structure InteractionGroups where
  memberships : Nat
  filter : Nat
  deriving DecidableEq

def InteractionGroups.none : InteractionGroups := ⟨0, 0⟩

/-- Collider shape description (`ColliderComponent`): an axis-aligned box
given by half-extents. -/
inductive ColliderComponent where
  | aabb (hx hy : ℚ)
  deriving DecidableEq

/-- Result of `ColliderComponent::to_collider` plus the parent body handle
attached on insertion into the collider set. -/
structure Collider where
  shape : ColliderComponent
  collision_groups : InteractionGroups
  sensor : Bool
  parent : Nat
  deriving DecidableEq

/-- Rigid body as built by `add_body`:
`RigidBodyBuilder::new(status).translation(x, y).mass(1.0, false)
.linear_damping(damping).lock_rotations().build()`; `user_data` defaults to
zero and is stamped by `add_body_with_entity`. -/
structure RigidBody where
  status : BodyStatus
  translation : Vector2f
  mass : ℚ
  linear_damping : ℚ
  rotations_locked : Bool
  user_data : Nat
  deriving DecidableEq

/-- Entity-owned body description (`RigidBodyComponent`). -/
structure RigidBodyComponent where
  status : BodyStatus
  collider : ColliderComponent
  should_sync : Bool
  sensor : Bool
  handle : Option Nat
  damping : ℚ
  interaction_group : InteractionGroups
  deriving DecidableEq

def RigidBodyComponent.new_static_cuboid (hx hy : ℚ) : RigidBodyComponent :=
  ⟨BodyStatus.static, ColliderComponent.aabb hx hy, true, false, none, 0,
    InteractionGroups.none⟩

def RigidBodyComponent.new_kinematic_cuboid (hx hy : ℚ) : RigidBodyComponent :=
  ⟨BodyStatus.kinematic, ColliderComponent.aabb hx hy, true, false, none, 0,
    InteractionGroups.none⟩

def RigidBodyComponent.new_dynamic_cuboid (hx hy : ℚ) : RigidBodyComponent :=
  ⟨BodyStatus.dynamic, ColliderComponent.aabb hx hy, true, false, none, 0,
    InteractionGroups.none⟩

structure PhysicConfiguration where
  gravity : ℚ
  deriving DecidableEq

/-- Physics world state.  The rapier pipeline, broad phase, narrow phase and
joint set are internals of the external engine and carry no state visible to
the claims; the two arenas are embedded as lists indexed by handle. -/
structure CollisionWorld where
  config : PhysicConfiguration
  bodies : List RigidBody
  colliders : List Collider
  deriving DecidableEq

def CollisionWorld.new (config : PhysicConfiguration) : CollisionWorld :=
  ⟨config, [], []⟩

/-- Translation of `CollisionWorld::add_body` (physics/mod.rs lines 140–164):
returns the cached handle unchanged if present, otherwise builds a body from
the component, inserts body and collider, and caches the fresh handle.  The
Rust method mutates `self` and `c`; the embedding returns the handle, the
updated world and the updated component. -/
def CollisionWorld.add_body (w : CollisionWorld) (translation : Vector2f)
    (c : RigidBodyComponent) : Nat × CollisionWorld × RigidBodyComponent :=
  match c.handle with
  | some h => (h, w, c)
  | none =>
      let body : RigidBody :=
        { status := c.status, translation := translation, mass := 1,
          linear_damping := c.damping, rotations_locked := true, user_data := 0 }
      let handle := w.bodies.length
      (handle,
        { w with
          bodies := w.bodies ++ [body],
          colliders := w.colliders ++
            [⟨c.collider, c.interaction_group, c.sensor, handle⟩] },
        { c with handle := some handle })

/-- Translation of `CollisionWorld::add_body_with_entity`: `add_body`, then
stamp the entity bits on the user-data slot of the body if the handle resolves. -/
def CollisionWorld.add_body_with_entity (w : CollisionWorld)
    (translation : Vector2f) (c : RigidBodyComponent) (e : Entity) :
    Nat × CollisionWorld × RigidBodyComponent :=
  let r := w.add_body translation c
  let h := r.1
  let w1 := r.2.1
  match w1.bodies.get? h with
  | some rb => (h, { w1 with bodies := w1.bodies.set h { rb with user_data := e } }, r.2.2)
  | none => (h, w1, r.2.2)

/-- Proximity status (`rapier2d::ncollide::query::Proximity`). -/
inductive Proximity where
  | intersecting
  | withinMargin
  | disjoint
  deriving DecidableEq

/-- Proximity notification delivered by the pipeline to the event handler. -/
structure RapierProximityEvent where
  collider1 : ColliderHandle
  collider2 : ColliderHandle
  new_status : Proximity
  deriving DecidableEq

/-- One notification produced by the rapier pipeline during a step: either a
proximity event or a contact event carrying the two collider handles. -/
inductive PhysicsNotification where
  | proximity (ev : RapierProximityEvent)
  | contact (collider1 collider2 : ColliderHandle)
  deriving DecidableEq

/-- Translation of `VecEventHandler::handle_proximity_event` (physics/mod.rs
lines 273–279): push a `ProximityEvent` game event only when the new status
is `Intersecting`. -/
def VecEventHandler.handle_proximity_event {E : Type}
    (acc : List (GameEvent E)) (event : RapierProximityEvent) :
    List (GameEvent E) :=
  if event.new_status = Proximity.intersecting then
    acc ++ [GameEvent.proximityEvent event.collider1 event.collider2]
  else acc

/-- Translation of `VecEventHandler::handle_contact_event` (physics/mod.rs
lines 281–285): the body only prints "CONTACT!!"; the push of a
`ContactEvent` is commented out, so the accumulator is unchanged. -/
def VecEventHandler.handle_contact_event {E : Type}
    (acc : List (GameEvent E)) (collider1 collider2 : ColliderHandle) :
    List (GameEvent E) :=
  acc

/-- Dispatch of one pipeline notification to the matching handler method. -/
def VecEventHandler.handle {E : Type} (acc : List (GameEvent E)) :
    PhysicsNotification → List (GameEvent E)
  | PhysicsNotification.proximity ev =>
      VecEventHandler.handle_proximity_event acc ev
  | PhysicsNotification.contact a b =>
      VecEventHandler.handle_contact_event acc a b

/-- Events accumulated by the `VecEventHandler` over the notifications the
pipeline delivers during one step, in delivery order. -/
def collectPipelineEvents {E : Type} (ns : List PhysicsNotification) :
    List (GameEvent E) :=
  ns.foldl VecEventHandler.handle []

/-- Translation of `CollisionWorld::step` (physics/mod.rs lines 179–212).
The numeric integration is performed by the external rapier pipeline and is
represented by its observable outcome: the list `ns` of notifications it
delivers to the event handler.  After the pipeline call returns, the
collected events are written one by one into the shared queue. -/
def CollisionWorld.step {E : Type} (w : CollisionWorld)
    (ns : List PhysicsNotification) (q : EventQueue E) :
    CollisionWorld × EventQueue E :=
  (w, (collectPipelineEvents ns).foldl EventQueue.single_write q)

/-- Per-notification event as the spec claims it: the model checked against
`collectPipelineEvents`. -/
def notificationEvent {E : Type} (n : PhysicsNotification) :
    Option (GameEvent E) :=
  match n with
  | PhysicsNotification.proximity ev =>
      if ev.new_status = Proximity.intersecting then
        some (GameEvent.proximityEvent ev.collider1 ev.collider2)
      else none
  | PhysicsNotification.contact _ _ => none

theorem collectPipelineEvents_go {E : Type} (ns : List PhysicsNotification) :
    ∀ acc : List (GameEvent E),
      ns.foldl VecEventHandler.handle acc = acc ++ ns.filterMap notificationEvent := by
  induction ns with
  | nil => intro acc; simp
  | cons n t ih =>
      intro acc
      rw [List.foldl_cons]
      cases n with
      | proximity ev =>
          by_cases hp : ev.new_status = Proximity.intersecting
          · rw [show VecEventHandler.handle acc (PhysicsNotification.proximity ev)
                = acc ++ [GameEvent.proximityEvent ev.collider1 ev.collider2] by
              simp [VecEventHandler.handle, VecEventHandler.handle_proximity_event, hp]]
            rw [ih]
            simp [List.filterMap_cons, notificationEvent, hp]
          · rw [show VecEventHandler.handle acc (PhysicsNotification.proximity ev) = acc by
              simp [VecEventHandler.handle, VecEventHandler.handle_proximity_event, hp]]
            rw [ih]
            simp [List.filterMap_cons, notificationEvent, hp]
      | contact a b =>
          rw [show VecEventHandler.handle acc (PhysicsNotification.contact a b) = acc from rfl]
          rw [ih]
          simp [List.filterMap_cons, notificationEvent]

theorem foldl_single_write {E : Type} (es : List (GameEvent E)) :
    ∀ q : EventQueue E,
      es.foldl EventQueue.single_write q
        = ⟨⟨q.chan.log ++ es⟩, q.deferred_events⟩ := by
  induction es with
  | nil => intro q; cases q with | mk c d => cases c; simp
  | cons e t ih =>
      intro q
      rw [List.foldl_cons, ih]
      simp [EventQueue.single_write, EventChannel.single_write]

/-- C3 counterexample: the claim says every contact notification produced by
a step is published as a `ContactEvent`.  A step whose pipeline delivers one
contact notification publishes nothing: `handle_contact_event` only prints
and its push is commented out, so the queue log stays empty instead of
holding one event. -/
theorem step_publishes_nothing_for_contact :
    ((CollisionWorld.new ⟨-981/100⟩).step (E := Unit)
        [PhysicsNotification.contact 0 1] EventQueue.new).2.chan.log = [] := by
  rfl

/-- C3 amended: `step` publishes, after the pipeline step has completed and
as one batch appended to the queue in delivery order, exactly one
`ProximityEvent` per proximity notification whose new status is
`Intersecting`, carrying the two collider handles; contact notifications and
non-intersecting proximity notifications publish nothing.  The deferred
staging list is untouched. -/
theorem step_publishes_intersecting_proximities_as_batch {E : Type}
    (w : CollisionWorld) (ns : List PhysicsNotification) (q : EventQueue E) :
    (w.step ns q).2.chan.log = q.chan.log ++ ns.filterMap notificationEvent
      ∧ (w.step ns q).2.deferred_events = q.deferred_events
      ∧ (w.step ns q).1 = w := by
  refine ⟨?_, ?_, rfl⟩
  · show ((collectPipelineEvents ns).foldl EventQueue.single_write q).chan.log = _
    rw [collectPipelineEvents, collectPipelineEvents_go, foldl_single_write]
    simp
  · show ((collectPipelineEvents ns).foldl EventQueue.single_write q).deferred_events = _
    rw [foldl_single_write]

/-- C4: `add_body` is idempotent on a component with a cached handle — it
returns the cached handle and leaves world and component untouched — and on
a component without one it inserts exactly one body built from the
kinetic class, damping and translation of the component, one collider built from
its shape, filter and sensor flag, caches the fresh handle on the component
and returns it. -/
theorem add_body_idempotent_and_inserting (w : CollisionWorld)
    (translation : Vector2f) (c : RigidBodyComponent) :
    (∀ h : Nat, c.handle = some h → w.add_body translation c = (h, w, c))
    ∧ (c.handle = none →
        (w.add_body translation c).1 = w.bodies.length
        ∧ (w.add_body translation c).2.1.bodies = w.bodies ++
            [{ status := c.status, translation := translation, mass := 1,
               linear_damping := c.damping, rotations_locked := true,
               user_data := 0 }]
        ∧ (w.add_body translation c).2.1.colliders = w.colliders ++
            [⟨c.collider, c.interaction_group, c.sensor, w.bodies.length⟩]
        ∧ (w.add_body translation c).2.1.config = w.config
        ∧ (w.add_body translation c).2.2 = { c with handle := some w.bodies.length }) := by
  constructor
  · intro h hh
    simp [CollisionWorld.add_body, hh]
  · intro hh
    simp [CollisionWorld.add_body, hh]

/-- Witness for C4: a world with one pre-existing body; a component caching
handle 7 passes through unchanged, and a fresh dynamic component gets
handle 1. -/
theorem add_body_idempotent_and_inserting_witness :
    (CollisionWorld.new ⟨-981/100⟩).add_body (2, 3)
        { RigidBodyComponent.new_dynamic_cuboid 1 1 with handle := some 7 }
      = (7, CollisionWorld.new ⟨-981/100⟩,
          { RigidBodyComponent.new_dynamic_cuboid 1 1 with handle := some 7 })
    ∧ ((CollisionWorld.new ⟨-981/100⟩).add_body (2, 3)
        (RigidBodyComponent.new_dynamic_cuboid 1 1)).1 = 0 := by
  constructor
  · exact (add_body_idempotent_and_inserting (CollisionWorld.new ⟨-981/100⟩) (2, 3)
      { RigidBodyComponent.new_dynamic_cuboid 1 1 with handle := some 7 }).1 7 rfl
  · exact ((add_body_idempotent_and_inserting (CollisionWorld.new ⟨-981/100⟩) (2, 3)
      (RigidBodyComponent.new_dynamic_cuboid 1 1)).2 rfl).1

/-- Transform component, from src/src/core/transform.rs.  `synchronize`
writes only the two translation coordinates. -/
structure Transform where
  translation : Vector2f
  scale : Vector2f
  rotation : ℚ
  dirty : Bool
  deriving DecidableEq

/-- Per-entity view of the external `hecs` world restricted to the two
components `synchronize` queries; an entity missing either component is not
yielded by `query::<(&mut Transform, &RigidBodyComponent)>()`. -/
structure EntityComponents where
  transform : Option Transform
  rigid_body : Option RigidBodyComponent
  deriving DecidableEq

/-- Body of the `synchronize` loop for one queried entity (physics/mod.rs
lines 215–231): skip unless `should_sync`, then resolve the cached handle
and, if it resolves to a live body, copy the body position into the
transform translation. -/
def CollisionWorld.sync_transform (w : CollisionWorld) (t : Transform)
    (rbc : RigidBodyComponent) : Transform :=
  if !rbc.should_sync then t
  else
    match rbc.handle with
    | Option.none => t
    | some h =>
        match w.bodies.get? h with
        | Option.none => t
        | some rigid_body => { t with translation := rigid_body.translation }

/-- Translation of `CollisionWorld::synchronize` (physics/mod.rs lines
214–232) over the per-entity component view. -/
def CollisionWorld.synchronize (w : CollisionWorld)
    (world : List EntityComponents) : List EntityComponents :=
  world.map fun e =>
    match e.transform, e.rigid_body with
    | some t, some rbc => { e with transform := some (w.sync_transform t rbc) }
    | _, _ => e

/-- Condition under which `synchronize` writes the transform of an entity: both
components present, `should_sync` set, and a cached handle resolving to a
live body. -/
def syncApplies (w : CollisionWorld) (e : EntityComponents) : Prop :=
  ∃ t rbc h rigid_body, e.transform = some t ∧ e.rigid_body = some rbc ∧
    rbc.should_sync = true ∧ rbc.handle = some h ∧
    w.bodies.get? h = some rigid_body

theorem synchronize_get {E : Type} (w : CollisionWorld)
    (world : List EntityComponents) (i : Nat) (e : EntityComponents)
    (he : world.get? i = some e) :
    (w.synchronize world).get? i = some
      (match e.transform, e.rigid_body with
        | some t, some rbc => { e with transform := some (w.sync_transform t rbc) }
        | _, _ => e) := by
  unfold CollisionWorld.synchronize
  rw [List.get?_map, he]
  rfl

/-- C5: `synchronize` copies the current body position into the transform
translation of an entity exactly when the entity has both a transform and a
rigid-body component with `should_sync = true` and a cached handle that
resolves to a live body (first conjunct); any entity failing that condition
— `should_sync` false, no cached handle, a dangling handle, or a missing
component — passes through unchanged, with no error (second conjunct). -/
theorem synchronize_copies_iff_should_sync_and_resolves
    (w : CollisionWorld) (world : List EntityComponents) (i : Nat)
    (e : EntityComponents) (he : world.get? i = some e) :
    (∀ t rbc h rigid_body, e.transform = some t → e.rigid_body = some rbc →
      rbc.should_sync = true → rbc.handle = some h →
      w.bodies.get? h = some rigid_body →
      (w.synchronize world).get? i = some
        { e with transform := some { t with translation := rigid_body.translation } })
    ∧ (¬ syncApplies w e → (w.synchronize world).get? i = some e) := by
  constructor
  · intro t rbc h rigid_body ht hrbc hsync hh hbody
    rw [synchronize_get (E := Unit) w world i e he]
    rw [ht, hrbc]
    rw [List.get?_eq_getElem?] at hbody
    simp [CollisionWorld.sync_transform, hsync, hh, hbody]
  · intro hnot
    rw [synchronize_get (E := Unit) w world i e he]
    cases htr : e.transform with
    | none => cases hrb : e.rigid_body <;> simp [htr, hrb]
    | some t =>
        cases hrb : e.rigid_body with
        | none => simp [htr, hrb]
        | some rbc =>
            simp only [htr, hrb]
            have hid : w.sync_transform t rbc = t := by
              cases hsync : rbc.should_sync with
              | false => simp [CollisionWorld.sync_transform, hsync]
              | true =>
                  cases hh : rbc.handle with
                  | none => simp [CollisionWorld.sync_transform, hsync, hh]
                  | some h =>
                      cases hbody : w.bodies.get? h with
                      | none =>
                          rw [List.get?_eq_getElem?] at hbody
                          simp [CollisionWorld.sync_transform, hsync, hh, hbody]
                      | some rigid_body =>
                          exact absurd ⟨t, rbc, h, rigid_body, htr, hrb, hsync, hh, hbody⟩ hnot
            rw [hid]
            have hee : (⟨some t, some rbc⟩ : EntityComponents) = e := by
              cases e with
              | mk et erb => simp_all
            rw [hee]

/-- Witness for C5: a world with one body at (3, 4); the transform of a synced entity is overwritten with (3, 4), and an entity with `should_sync`
false is untouched. -/
theorem synchronize_copies_iff_should_sync_and_resolves_witness :
    (CollisionWorld.synchronize
        ⟨⟨-981/100⟩,
          [{ status := BodyStatus.dynamic, translation := (3, 4), mass := 1,
             linear_damping := 0, rotations_locked := true, user_data := 0 }], []⟩
        [⟨some ⟨(0, 0), (1, 1), 0, false⟩,
          some { RigidBodyComponent.new_dynamic_cuboid 1 1 with handle := some 0 }⟩]).get? 0
      = some ⟨some ⟨(3, 4), (1, 1), 0, false⟩,
          some { RigidBodyComponent.new_dynamic_cuboid 1 1 with handle := some 0 }⟩ :=
  (synchronize_copies_iff_should_sync_and_resolves
    ⟨⟨-981/100⟩,
      [{ status := BodyStatus.dynamic, translation := (3, 4), mass := 1,
         linear_damping := 0, rotations_locked := true, user_data := 0 }], []⟩
    [⟨some ⟨(0, 0), (1, 1), 0, false⟩,
      some { RigidBodyComponent.new_dynamic_cuboid 1 1 with handle := some 0 }⟩]
    0 _ rfl).1
    ⟨(0, 0), (1, 1), 0, false⟩
    { RigidBodyComponent.new_dynamic_cuboid 1 1 with handle := some 0 }
    0 _ rfl rfl rfl rfl rfl

/-! ### Particle pool and emitter (claims C6, C7, C8, C10),
from src/src/render/particle.rs -/

/-- Colour payload (`crate::core::colors::RgbaColor`; core/colors.rs is not
among the provided sources, and no claim inspects colour values — the record
is carried opaquely through respawn and curve fields). -/
structure RgbaColor where
  r : Nat
  g : Nat
  b : Nat
  a : Nat
  deriving DecidableEq

def RgbaColor.red : RgbaColor := ⟨255, 0, 0, 255⟩

/-- Piecewise-linear curve (src/src/core/curve.rs): ordered control points
`xs` with values `ys`; defaults to empty.  Evaluation is not consulted by
any claim. -/
structure Curve (T : Type) where
  xs : List ℚ
  ys : List T
  deriving DecidableEq

/-- Pooled particle record (struct `Particle`, particle.rs lines 35–46). -/
structure Particle where
  life : Nat
  initial_life : Nat
  position : Vector2f
  velocity : Vector2f
  colors : Curve RgbaColor
  scale : Vector2f
  scale_over_lifetime : Option (Curve ℚ)
  damping : ℚ
  rotation : ℚ
  deriving DecidableEq

/-- Derived `Default`: all fields zero/empty. -/
def Particle.default : Particle :=
  ⟨0, 0, (0, 0), (0, 0), ⟨[], []⟩, (0, 0), none, 0, 0⟩

/-- `Particle::respawn` (particle.rs lines 49–67): overwrite the slot for a
fresh particle; `colors` is left as is (the caller assigns it right after). -/
def Particle.respawn (p : Particle) (life : Nat) (origin velocity scale : Vector2f)
    (damping : ℚ) (scale_over_lifetime : Option (Curve ℚ)) (rotation : ℚ) :
    Particle :=
  { p with
    life := life,
    position := origin,
    scale := scale,
    velocity := velocity,
    damping := damping,
    scale_over_lifetime := scale_over_lifetime,
    initial_life := life,
    rotation := rotation }

/-- `Particle::alive`: liveness predicate `life > 0`. -/
def Particle.alive (p : Particle) : Bool :=
  decide (0 < p.life)

/-- `Particle::update`: multiplicative velocity decay, position integration
with the decayed velocity, lifetime decremented by one frame (called only on
live particles, so the `u32` decrement cannot underflow). -/
def Particle.update (p : Particle) (dt : ℚ) : Particle :=
  let v : Vector2f := (p.velocity.1 * (1 - p.damping / 1000),
                       p.velocity.2 * (1 - p.damping / 1000))
  { p with
    velocity := v,
    position := (p.position.1 + v.1 * dt, p.position.2 + v.2 * dt),
    life := p.life - 1 }

/-- Fixed-capacity pool (struct `ParticlePool`, particle.rs lines 99–114). -/
structure ParticlePool where
  particles : List Particle
  free : List Nat
  init : Bool
  deriving DecidableEq

/-- Derived `Default`: empty, uninitialized. -/
def ParticlePool.default : ParticlePool := ⟨[], [], false⟩

/-- `ParticlePool::of_size` (particle.rs lines 118–124): `nb` dead default
slots, free list holding every index. -/
def ParticlePool.of_size (nb : Nat) : ParticlePool :=
  ⟨List.replicate nb Particle.default, List.range nb, true⟩

/-- `ParticlePool::get_available` (particle.rs lines 127–132): pop one index
off the free list (`Vec::pop` removes the last element).  The Rust function
returns `Option<&mut Particle>` obtained by an unchecked slot access; the
embedding returns the popped index (claim C10 proves it is in bounds) and
the pool with the index removed. -/
def ParticlePool.get_available (p : ParticlePool) : Option Nat × ParticlePool :=
  match p.free.getLast? with
  | Option.none => (Option.none, p)
  | some idx => (some idx, { p with free := p.free.dropLast })

/-- `ParticlePool::all_dead`: every slot is back on the free list. -/
def ParticlePool.all_dead (p : ParticlePool) : Bool :=
  decide (p.particles.length = p.free.length)

/-- Spawn source shape (`EmitterSource`). -/
inductive EmitterSource where
  | point
  | line (p1 p2 : Vector2f)
  deriving DecidableEq

/-- Initial particle scale configuration (`ParticleScale`). -/
inductive ParticleScale where
  | constant (v : Vector2f)
  | random (low high : Vector2f)
  deriving DecidableEq

/-- Rendered shape (`ParticleShape`); irrelevant to update logic. -/
inductive ParticleShape where
  | quad
  | texture (id : String)
  deriving DecidableEq

def vadd (a b : Vector2f) : Vector2f := (a.1 + b.1, a.2 + b.2)

def vsub (a b : Vector2f) : Vector2f := (a.1 - b.1, a.2 - b.2)

def vsmul (a : Vector2f) (t : ℚ) : Vector2f := (a.1 * t, a.2 * t)

/-- `Vector2f::lerp`: `a + (b - a) * t`. -/
def vlerp (a b : Vector2f) (t : ℚ) : Vector2f := vadd a (vsmul (vsub b a) t)

/-- `EmitterSource::spawn_position` (particle.rs lines 151–157) with the
random draw `t` supplied by the sample oracle of the caller. -/
def EmitterSource.spawn_position (s : EmitterSource) (emitter_position : Vector2f)
    (t : ℚ) : Vector2f :=
  match s with
  | EmitterSource.point => emitter_position
  | EmitterSource.line p1 p2 =>
      vlerp (vsub emitter_position p1) (vadd emitter_position p2) t

/-- Random draws backing one spawn (`rng.gen_range` results), supplied as
an oracle: the angle and its cosine/sine (standing for the `f32`
trigonometry of `Rotation2::new(angle)` applied to `(speed, 0)`), the speed,
the random scale draw and the position draw along a line source. -/
structure SpawnSample where
  angle : ℚ
  cos_angle : ℚ
  sin_angle : ℚ
  speed : ℚ
  scale_x : ℚ
  scale_y : ℚ
  pos_t : ℚ
  deriving DecidableEq

/-- Per-entity particle emitter (struct `ParticleEmitter`, particle.rs lines
166–204). -/
structure ParticleEmitter where
  enabled : Bool
  particles : ParticlePool
  source : EmitterSource
  shape : ParticleShape
  damping : ℚ
  velocity_range : ℚ × ℚ
  angle_range : ℚ × ℚ
  scale : ParticleScale
  scale_over_lifetime : Option (Curve ℚ)
  particle_number : ℚ
  nb_accumulator : ℚ
  colors : Curve RgbaColor
  particle_life : Nat
  position_offset : Vector2f
  burst : Bool
  deriving DecidableEq

/-- `Default for ParticleEmitter` (particle.rs lines 206–229); the `f32`
constant `2.0 * PI` is embedded as its nearest decimal rendering, a value no
claim inspects. -/
def ParticleEmitter.default : ParticleEmitter :=
  { enabled := true,
    damping := 0,
    particles := ParticlePool.default,
    source := EmitterSource.point,
    shape := ParticleShape.quad,
    velocity_range := (0, 10),
    angle_range := (0, 6.2831855),
    scale := ParticleScale.constant (5, 5),
    scale_over_lifetime := none,
    particle_number := 1,
    nb_accumulator := 0,
    colors := ⟨[0], [RgbaColor.red]⟩,
    particle_life := 10,
    position_offset := (0, 0),
    burst := false }

/-- `ParticleEmitter::init_pool` (particle.rs lines 248–255): a single frame of slots in burst mode, `particle_life + 1` frames otherwise, times
`ceil(particle_number)` (the `as usize` cast of a `f32` saturates at zero
for negative values, as `Int.toNat` does). -/
def ParticleEmitter.init_pool (em : ParticleEmitter) : ParticleEmitter :=
  let frame_needed : Nat := if em.burst then 1 else em.particle_life + 1
  { em with
    particles := ParticlePool.of_size (em.particle_number.ceil.toNat * frame_needed) }

/-- Fill of one freshly acquired slot (loop body, particle.rs lines
277–305): sample scale, position and velocity, `respawn` the slot, then
assign the colour curve of the emitter. -/
def spawnParticle (em : ParticleEmitter) (position : Vector2f) (s : SpawnSample)
    (p : Particle) : Particle :=
  let scale : Vector2f :=
    match em.scale with
    | ParticleScale.constant v => v
    | ParticleScale.random low high => (s.scale_x, s.scale_y)
  let origin : Vector2f :=
    vadd (em.source.spawn_position position s.pos_t) em.position_offset
  let velocity : Vector2f := (s.speed * s.cos_angle, s.speed * s.sin_angle)
  let p1 := p.respawn em.particle_life origin velocity scale em.damping
    em.scale_over_lifetime s.angle
  { p1 with colors := em.colors }

/-- Emission loop (particle.rs lines 276–307): `n` attempts; each acquires a
slot if one is free and fills it, silently dropping the spawn otherwise.
The slot read backing the Rust `&mut` is `getD` (claim C10 proves the index
in bounds, where it coincides with the unchecked access). -/
def spawnLoop (em : ParticleEmitter) (position : Vector2f)
    (samples : Nat → SpawnSample) (pool : ParticlePool) (i : Nat) :
    Nat → ParticlePool
  | 0 => pool
  | Nat.succ n =>
      match pool.get_available with
      | (Option.none, pool1) => spawnLoop em position samples pool1 (i + 1) n
      | (some idx, pool1) =>
          let pool2 := { pool1 with
            particles := pool1.particles.set idx
              (spawnParticle em position (samples i)
                (pool1.particles.getD idx Particle.default)) }
          spawnLoop em position samples pool2 (i + 1) n

/-- Per-slot scan (particle.rs lines 313–321): live particles advance their
kinematics; the index of a dead slot is pushed onto the free list unless already
present.  The free list is threaded left to right, as the Rust loop mutates
it in index order. -/
def scanDead (dt : ℚ) : List Particle → Nat → List Nat → List Particle × List Nat
  | [], _, free => ([], free)
  | p :: rest, idx, free =>
      if p.alive then
        let r := scanDead dt rest (idx + 1) free
        (p.update dt :: r.1, r.2)
      else
        let free1 := if free.contains idx then free else free ++ [idx]
        let r := scanDead dt rest (idx + 1) free1
        (p :: r.1, r.2)

/-- Emission section of `ParticleEmitter::update` (particle.rs lines
271–310), after the accumulator has been increased: when the integer part
of the accumulator is positive, run that many spawn attempts if the emitter
is enabled (the `f32 as u32` cast saturates at zero, as `Int.toNat` does)
and drop the integer part of the accumulator. -/
def emitPhase (em2 : ParticleEmitter) (position : Vector2f)
    (samples : Nat → SpawnSample) : ParticleEmitter :=
  let entire_nb : Nat := em2.nb_accumulator.floor.toNat
  if 0 < entire_nb then
    let pool :=
      if em2.enabled then spawnLoop em2 position samples em2.particles 0 entire_nb
      else em2.particles
    { em2 with
      particles := pool,
      nb_accumulator := em2.nb_accumulator - em2.nb_accumulator.floor }
  else em2

/-- Kinematics-and-recycling section of `ParticleEmitter::update`
(particle.rs lines 312–321): the per-slot scan over the whole pool. -/
def scanPhase (em3 : ParticleEmitter) (dt : ℚ) : ParticleEmitter :=
  let r := scanDead dt em3.particles.particles 0 em3.particles.free
  { em3 with particles := { em3.particles with particles := r.1, free := r.2 } }

/-- Burst epilogue of `ParticleEmitter::update` (particle.rs lines
323–331): in burst mode disable emission and request deletion once every
slot is back on the free list; otherwise keep the emitter alive. -/
def burstPhase (em4 : ParticleEmitter) : ParticleEmitter × Bool :=
  if em4.burst then
    let em5 := { em4 with enabled := false }
    if em5.particles.all_dead then (em5, false) else (em5, true)
  else (em4, true)

/-- `ParticleEmitter::update` (particle.rs lines 259–332).  Random draws are
supplied by the oracle `samples` (draw `i` feeds the `i`-th spawn attempt of
this call).  Returns the updated emitter and the Rust return value (`false`
requests deletion of the owning entity). -/
def ParticleEmitter.update (em0 : ParticleEmitter) (position : Vector2f)
    (dt : ℚ) (samples : Nat → SpawnSample) : ParticleEmitter × Bool :=
  let em1 := if !em0.particles.init then em0.init_pool else em0
  let em2 := { em1 with nb_accumulator := em1.nb_accumulator + em1.particle_number }
  burstPhase (scanPhase (emitPhase em2 position samples) dt)

/-! ### Garbage collector (claim C9), from src/src/gameplay/delete.rs -/

/-- Modelled from the spec: `hecs::World::despawn` of the external entity
store capability — "despawn(Entity) -> fails with NotFound if absent"
(spec §6).  The store is embedded as the list of live entity handles. -/
def despawn (world : List Entity) (e : Entity) : Except String (List Entity) :=
  if e ∈ world then Except.ok (world.erase e) else Except.error "NoSuchEntity"

/-- End-of-tick reaper (struct `GarbageCollector`): owns a private reader
cursor registered at construction. -/
structure GarbageCollector where
  rdr_id : ReaderId

/-- `GarbageCollector::new`: register a private reader on the shared queue. -/
def GarbageCollector.new {E : Type} (q : EventQueue E) : GarbageCollector :=
  ⟨q.register_reader⟩

/-- Handling of one event read by `collect` (delete.rs lines 28–41): despawn
the referenced entity of a Delete event; a failed despawn is logged and
ignored, leaving the world as it was; other events are skipped. -/
def GarbageCollector.collectStep {E : Type} (w : List Entity)
    (ev : GameEvent E) : List Entity :=
  match ev with
  | GameEvent.delete e =>
      match despawn w e with
      | Except.ok w1 => w1
      | Except.error _ => w
  | _ => w

/-- `GarbageCollector::collect` (delete.rs lines 26–43): read every event
past the private cursor and process each in order; the cursor advances to
the head. -/
def GarbageCollector.collect {E : Type} (gc : GarbageCollector)
    (world : List Entity) (q : EventQueue E) : List Entity × GarbageCollector :=
  let r := q.read gc.rdr_id
  (r.1.foldl GarbageCollector.collectStep world, ⟨r.2⟩)

theorem collect_foldl_filter {E : Type} [DecidableEq E]
    (evs : List (GameEvent E)) :
    ∀ w : List Entity, w.Nodup →
      evs.foldl (GarbageCollector.collectStep (E := E)) w
        = w.filter (fun e => decide (GameEvent.delete (E := E) e ∉ evs)) := by
  induction evs with
  | nil =>
      intro w hw
      simp
  | cons ev evs ih =>
      intro w hw
      rw [List.foldl_cons]
      cases ev with
      | delete a =>
          have hstep : GarbageCollector.collectStep (E := E) w (GameEvent.delete a)
              = w.erase a := by
            by_cases ha : a ∈ w
            · simp [GarbageCollector.collectStep, despawn, ha]
            · simp [GarbageCollector.collectStep, despawn, ha,
                List.erase_of_not_mem ha]
          rw [hstep, ih (w.erase a) (hw.erase a)]
          rw [hw.erase_eq_filter a, List.filter_filter]
          apply List.filter_congr
          intro x hx
          simp only [List.mem_cons, not_or, GameEvent.delete.injEq]
          rw [Bool.eq_iff_iff]
          simp only [Bool.and_eq_true, decide_eq_true_eq, bne_iff_ne]
          tauto
      | playBackgroundMusic s =>
          rw [show GarbageCollector.collectStep (E := E) w
            (GameEvent.playBackgroundMusic s) = w from rfl, ih w hw]
          apply List.filter_congr
          intro x hx
          simp
      | playSound s =>
          rw [show GarbageCollector.collectStep (E := E) w
            (GameEvent.playSound s) = w from rfl, ih w hw]
          apply List.filter_congr
          intro x hx
          simp
      | proximityEvent a b =>
          rw [show GarbageCollector.collectStep (E := E) w
            (GameEvent.proximityEvent a b) = w from rfl, ih w hw]
          apply List.filter_congr
          intro x hx
          simp
      | contactEvent a b =>
          rw [show GarbageCollector.collectStep (E := E) w
            (GameEvent.contactEvent a b) = w from rfl, ih w hw]
          apply List.filter_congr
          intro x hx
          simp
      | gameEvent g =>
          rw [show GarbageCollector.collectStep (E := E) w
            (GameEvent.gameEvent g) = w from rfl, ih w hw]
          apply List.filter_congr
          intro x hx
          simp

/-- C9: `collect` reads all events past its private cursor and despawns the
entity of every Delete event: the surviving entities are exactly those not
referenced by any Delete event read (first conjunct, which also shows a
Delete for an already-removed entity — including a duplicate Delete in the
same batch — is absorbed rather than propagated); the cursor advances to
the head (second conjunct); and a despawn of a missing entity is an
explicit no-op (third conjunct). -/
theorem collect_despawns_deletes_tolerating_missing {E : Type} [DecidableEq E]
    (gc : GarbageCollector) (world : List Entity) (q : EventQueue E)
    (hw : world.Nodup) :
    (gc.collect world q).1
      = world.filter
          (fun e => decide (GameEvent.delete (E := E) e ∉ q.chan.log.drop gc.rdr_id))
    ∧ (gc.collect world q).2.rdr_id = q.chan.log.length
    ∧ (∀ e : Entity, e ∉ world →
        GarbageCollector.collectStep (E := E) world (GameEvent.delete e) = world) := by
  refine ⟨collect_foldl_filter _ world hw, rfl, ?_⟩
  intro e he
  simp [GarbageCollector.collectStep, despawn, he]

/-- Witness for C9: a log carrying a duplicate Delete for entity 1 and an
unrelated sound event, read against the live set `[1, 2]`: entity 1 is
despawned once, the duplicate is absorbed, entity 2 survives. -/
theorem collect_despawns_deletes_tolerating_missing_witness :
    (GarbageCollector.collect (E := Unit) ⟨0⟩ [1, 2]
        ⟨⟨[GameEvent.delete 1, GameEvent.delete 1, GameEvent.playSound "x"]⟩, []⟩).1
      = List.filter
          (fun e => decide (GameEvent.delete (E := Unit) e ∉
            List.drop (⟨0⟩ : GarbageCollector).rdr_id
              (⟨⟨[GameEvent.delete 1, GameEvent.delete 1, GameEvent.playSound "x"]⟩,
                []⟩ : EventQueue Unit).chan.log))
          [1, 2]
    ∧ (GarbageCollector.collect (E := Unit) ⟨0⟩ [1, 2]
        ⟨⟨[GameEvent.delete 1, GameEvent.delete 1, GameEvent.playSound "x"]⟩, []⟩).2.rdr_id
      = (⟨⟨[GameEvent.delete 1, GameEvent.delete 1, GameEvent.playSound "x"]⟩,
          []⟩ : EventQueue Unit).chan.log.length
    ∧ (∀ e : Entity, e ∉ [1, 2] →
        GarbageCollector.collectStep (E := Unit) [1, 2] (GameEvent.delete e) = [1, 2]) :=
  collect_despawns_deletes_tolerating_missing ⟨0⟩ [1, 2]
    ⟨⟨[GameEvent.delete 1, GameEvent.delete 1, GameEvent.playSound "x"]⟩, []⟩
    (by decide)

/-! ### Pool invariants (claims C6 and C10) -/

/-- Free-list invariant of a pool of capacity `C`: fixed slot count,
initialized, no duplicate free index, every free index in bounds. -/
def PoolInv (C : Nat) (p : ParticlePool) : Prop :=
  p.particles.length = C ∧ p.init = true ∧ p.free.Nodup ∧ ∀ i ∈ p.free, i < C

theorem poolInv_of_size (C : Nat) : PoolInv C (ParticlePool.of_size C) := by
  refine ⟨by simp [ParticlePool.of_size], rfl, ?_, ?_⟩
  · exact List.nodup_range C
  · intro i hi
    exact List.mem_range.mp hi

theorem getLast?_not_mem_dropLast {l : List Nat} (h : l.Nodup) {i : Nat}
    (hl : l.getLast? = some i) : i ∉ l.dropLast := by
  have hne : l ≠ [] := by
    intro he
    rw [he] at hl
    exact Option.noConfusion hl
  have hdec := List.dropLast_concat_getLast hne
  have hi : i = l.getLast hne := by
    have := List.getLast?_eq_getLast_of_ne_nil hne
    rw [hl] at this
    exact Option.some.inj this
  have hnd : (l.dropLast ++ [l.getLast hne]).Nodup := by
    rw [hdec]; exact h
  rw [List.nodup_append] at hnd
  intro hmem
  exact hnd.2.2 hmem (by rw [hi]; exact List.mem_singleton_self _)

theorem get_available_particles (p : ParticlePool) :
    p.get_available.2.particles = p.particles ∧ p.get_available.2.init = p.init := by
  unfold ParticlePool.get_available
  cases p.free.getLast? <;> exact ⟨rfl, rfl⟩

theorem get_available_poolInv {C : Nat} {p : ParticlePool} (h : PoolInv C p) :
    PoolInv C p.get_available.2 := by
  obtain ⟨hlen, hinit, hnd, hb⟩ := h
  unfold ParticlePool.get_available
  cases hl : p.free.getLast? with
  | none => exact ⟨hlen, hinit, hnd, hb⟩
  | some idx =>
      refine ⟨hlen, hinit, ?_, ?_⟩
      · exact (List.dropLast_sublist p.free).nodup hnd
      · intro i hi
        exact hb i (List.mem_of_mem_dropLast hi)

theorem get_available_popped_not_free {p : ParticlePool} (hnd : p.free.Nodup)
    {i : Nat} (hi : p.get_available.1 = some i) :
    i ∉ p.get_available.2.free := by
  unfold ParticlePool.get_available at hi ⊢
  cases hl : p.free.getLast? with
  | none => rw [hl] at hi; exact Option.noConfusion hi
  | some idx =>
      rw [hl] at hi
      have : idx = i := Option.some.inj hi
      subst this
      simpa using getLast?_not_mem_dropLast hnd hl

theorem get_available_none_iff (p : ParticlePool) :
    (p.get_available.1 = Option.none ↔ p.free = []) ∧
    (p.free = [] → p.get_available = (Option.none, p)) := by
  constructor
  · unfold ParticlePool.get_available
    cases hl : p.free.getLast? with
    | none => simpa using List.getLast?_eq_none_iff.mp hl
    | some idx =>
        simp only []
        constructor
        · intro he; exact Option.noConfusion he
        · intro he
          rw [he] at hl
          exact Option.noConfusion hl
  · intro he
    unfold ParticlePool.get_available
    rw [he]
    rfl

theorem get_available_some_lt {C : Nat} {p : ParticlePool} (h : PoolInv C p)
    {i : Nat} (hi : p.get_available.1 = some i) : i < p.particles.length := by
  obtain ⟨hlen, hinit, hnd, hb⟩ := h
  unfold ParticlePool.get_available at hi
  cases hl : p.free.getLast? with
  | none => rw [hl] at hi; exact Option.noConfusion hi
  | some idx =>
      rw [hl] at hi
      have hidx : idx = i := Option.some.inj hi
      subst hidx
      have hne : p.free ≠ [] := by
        intro he; rw [he] at hl; exact Option.noConfusion hl
      have hmem : idx ∈ p.free := by
        have := List.getLast?_eq_getLast_of_ne_nil hne
        rw [hl] at this
        rw [Option.some.inj this]
        exact List.getLast_mem hne
      rw [hlen]
      exact hb idx hmem

theorem spawnLoop_poolInv {C : Nat} (em : ParticleEmitter) (position : Vector2f)
    (samples : Nat → SpawnSample) :
    ∀ (n : Nat) (pool : ParticlePool) (i : Nat), PoolInv C pool →
      PoolInv C (spawnLoop em position samples pool i n) := by
  intro n
  induction n with
  | zero => intro pool i h; exact h
  | succ n ih =>
      intro pool i h
      unfold spawnLoop
      cases hg : pool.get_available with
      | mk popped pool1 =>
          cases popped with
          | none =>
              have h1 : PoolInv C pool1 := by
                have := get_available_poolInv h
                rw [hg] at this
                exact this
              exact ih pool1 (i + 1) h1
          | some idx =>
              have h1 : PoolInv C pool1 := by
                have := get_available_poolInv h
                rw [hg] at this
                exact this
              apply ih
              obtain ⟨hlen, hinit, hnd, hb⟩ := h1
              exact ⟨by simpa using hlen, hinit, hnd, hb⟩

theorem scanDead_spec (dt : ℚ) :
    ∀ (ps : List Particle) (idx : Nat) (free : List Nat) (N : Nat),
      free.Nodup → (∀ j ∈ free, j < N) → idx + ps.length ≤ N →
      (scanDead dt ps idx free).1.length = ps.length
      ∧ (scanDead dt ps idx free).2.Nodup
      ∧ (∀ j ∈ (scanDead dt ps idx free).2, j < N) := by
  intro ps
  induction ps with
  | nil =>
      intro idx free N hnd hb hle
      exact ⟨rfl, hnd, hb⟩
  | cons p rest ih =>
      intro idx free N hnd hb hle
      simp only [List.length_cons] at hle
      by_cases ha : p.alive = true
      · have := ih (idx + 1) free N hnd hb (by omega)
        simp only [scanDead, ha, if_true]
        exact ⟨by simpa using this.1, this.2.1, this.2.2⟩
      · by_cases hc : free.contains idx = true
        · have := ih (idx + 1) free N hnd hb (by omega)
          simp only [scanDead, ha, if_false, hc, if_true]
          exact ⟨by simpa using this.1, this.2.1, this.2.2⟩
        · have hnotmem : idx ∉ free := by
            intro hm
            exact absurd (List.elem_eq_true_of_mem hm) (by simpa using hc)
          have hnd1 : (free ++ [idx]).Nodup := by
            rw [List.nodup_append]
            exact ⟨hnd, List.nodup_singleton idx,
              by intro a ha1 ha2; rw [List.mem_singleton] at ha2; subst ha2;
                 exact hnotmem ha1⟩
          have hb1 : ∀ j ∈ free ++ [idx], j < N := by
            intro j hj
            rcases List.mem_append.mp hj with hj | hj
            · exact hb j hj
            · rw [List.mem_singleton] at hj; omega
          have := ih (idx + 1) (free ++ [idx]) N hnd1 hb1 (by omega)
          simp only [scanDead, ha, if_false, hc, Bool.false_eq_true, if_false]
          exact ⟨by simpa using this.1, this.2.1, this.2.2⟩

theorem emitPhase_enabled (em2 : ParticleEmitter) (position : Vector2f)
    (samples : Nat → SpawnSample) :
    (emitPhase em2 position samples).enabled = em2.enabled := by
  unfold emitPhase
  by_cases hn : 0 < em2.nb_accumulator.floor.toNat <;> simp [hn]

theorem emitPhase_burst (em2 : ParticleEmitter) (position : Vector2f)
    (samples : Nat → SpawnSample) :
    (emitPhase em2 position samples).burst = em2.burst := by
  unfold emitPhase
  by_cases hn : 0 < em2.nb_accumulator.floor.toNat <;> simp [hn]

theorem emitPhase_particles_disabled (em2 : ParticleEmitter)
    (position : Vector2f) (samples : Nat → SpawnSample)
    (he : em2.enabled = false) :
    (emitPhase em2 position samples).particles = em2.particles := by
  unfold emitPhase
  by_cases hn : 0 < em2.nb_accumulator.floor.toNat <;> simp [hn, he]

theorem emitPhase_poolInv {C : Nat} {em2 : ParticleEmitter}
    (h : PoolInv C em2.particles) (position : Vector2f)
    (samples : Nat → SpawnSample) :
    PoolInv C (emitPhase em2 position samples).particles := by
  unfold emitPhase
  by_cases hn : 0 < em2.nb_accumulator.floor.toNat
  · by_cases he : em2.enabled = true
    · simpa [hn, he] using
        spawnLoop_poolInv em2 position samples em2.nb_accumulator.floor.toNat
          em2.particles 0 h
    · have he' : em2.enabled = false := by
        cases hb : em2.enabled
        · rfl
        · exact absurd hb he
      simpa [hn, he'] using h
  · simpa [hn] using h

theorem scanPhase_spec {C : Nat} {em3 : ParticleEmitter}
    (h : PoolInv C em3.particles) (dt : ℚ) :
    PoolInv C (scanPhase em3 dt).particles
    ∧ (scanPhase em3 dt).enabled = em3.enabled
    ∧ (scanPhase em3 dt).burst = em3.burst := by
  obtain ⟨hlen, hinit, hnd, hb⟩ := h
  have hs := scanDead_spec dt em3.particles.particles 0 em3.particles.free C
    hnd hb (by omega)
  exact ⟨⟨by rw [show (scanPhase em3 dt).particles.particles
        = (scanDead dt em3.particles.particles 0 em3.particles.free).1 from rfl,
        hs.1, hlen],
      hinit, hs.2.1, hs.2.2⟩, rfl, rfl⟩

theorem burstPhase_spec (em4 : ParticleEmitter) :
    burstPhase em4
      = (if em4.burst then { em4 with enabled := false } else em4,
         !(em4.burst && em4.particles.all_dead)) := by
  unfold burstPhase
  cases hb : em4.burst
  · simp [hb]
  · cases hd : em4.particles.all_dead
    · simp [hb, hd]
    · simp [hb, hd]

theorem burstPhase_fst_particles (em4 : ParticleEmitter) :
    (burstPhase em4).1.particles = em4.particles := by
  rw [burstPhase_spec]
  cases hb : em4.burst <;> simp [hb]

theorem phases_poolInv {C : Nat} {em2 : ParticleEmitter}
    (h : PoolInv C em2.particles) (position : Vector2f) (dt : ℚ)
    (samples : Nat → SpawnSample) :
    PoolInv C ((burstPhase (scanPhase (emitPhase em2 position samples) dt)).1).particles := by
  have he := emitPhase_poolInv h position samples
  have hsc := scanPhase_spec he dt
  rw [burstPhase_fst_particles]
  exact hsc.1

theorem update_poolInv {C : Nat} {em0 : ParticleEmitter}
    (h : PoolInv C em0.particles) (position : Vector2f) (dt : ℚ)
    (samples : Nat → SpawnSample) :
    PoolInv C ((em0.update position dt samples).1).particles := by
  have hinit : em0.particles.init = true := h.2.1
  unfold ParticleEmitter.update
  rw [hinit]
  simp only [Bool.not_true, Bool.false_eq_true, if_false]
  exact @phases_poolInv C
    { em0 with nb_accumulator := em0.nb_accumulator + em0.particle_number }
    h position dt samples

/-- Emitter states reachable from a pool freshly sized to `C` through
`update` calls and direct `get_available` pops. -/
inductive EmitterReach (C : Nat) : ParticleEmitter → Prop where
  | start (em : ParticleEmitter) :
      EmitterReach C { em with particles := ParticlePool.of_size C }
  | update {em : ParticleEmitter} (h : EmitterReach C em)
      (position : Vector2f) (dt : ℚ) (samples : Nat → SpawnSample) :
      EmitterReach C (em.update position dt samples).1
  | getAvail {em : ParticleEmitter} (h : EmitterReach C em) :
      EmitterReach C { em with particles := em.particles.get_available.2 }

theorem reach_poolInv {C : Nat} {em : ParticleEmitter}
    (h : EmitterReach C em) : PoolInv C em.particles := by
  induction h with
  | start em => exact poolInv_of_size C
  | update h position dt samples ih => exact update_poolInv ih position dt samples
  | getAvail h ih => exact get_available_poolInv ih

/-- C10: in every pool state reachable from `of_size C` through
`ParticleEmitter::update` and `get_available`, every free-list index is
strictly below the particle-array length and the free list holds no
duplicate, so the unchecked slot access inside `get_available` is always in
bounds (last conjunct); `get_available` is total, returning `none` exactly
when the free list is empty (third conjunct). -/
theorem reachable_pool_free_indices_safe {C : Nat} {em : ParticleEmitter}
    (h : EmitterReach C em) :
    (∀ i ∈ em.particles.free, i < em.particles.particles.length)
    ∧ em.particles.free.Nodup
    ∧ (em.particles.get_available.1 = Option.none ↔ em.particles.free = [])
    ∧ (∀ i, em.particles.get_available.1 = some i →
        i < em.particles.particles.length) := by
  obtain ⟨hlen, hinit, hnd, hb⟩ := reach_poolInv h
  refine ⟨?_, hnd, (get_available_none_iff em.particles).1, ?_⟩
  · intro i hi
    rw [hlen]
    exact hb i hi
  · intro i hi
    exact get_available_some_lt (reach_poolInv h) hi

/-- Witness for C10 at the concrete start state of capacity 3. -/
theorem reachable_pool_free_indices_safe_witness :
    (∀ i ∈ ({ ParticleEmitter.default with particles := ParticlePool.of_size 3 }
        : ParticleEmitter).particles.free,
      i < ({ ParticleEmitter.default with particles := ParticlePool.of_size 3 }
        : ParticleEmitter).particles.particles.length)
    ∧ ({ ParticleEmitter.default with particles := ParticlePool.of_size 3 }
        : ParticleEmitter).particles.free.Nodup
    ∧ (({ ParticleEmitter.default with particles := ParticlePool.of_size 3 }
        : ParticleEmitter).particles.get_available.1 = Option.none
      ↔ ({ ParticleEmitter.default with particles := ParticlePool.of_size 3 }
        : ParticleEmitter).particles.free = [])
    ∧ (∀ i, ({ ParticleEmitter.default with particles := ParticlePool.of_size 3 }
        : ParticleEmitter).particles.get_available.1 = some i →
      i < ({ ParticleEmitter.default with particles := ParticlePool.of_size 3 }
        : ParticleEmitter).particles.particles.length) :=
  reachable_pool_free_indices_safe (EmitterReach.start (C := 3) ParticleEmitter.default)

/-- C6: in every reachable pool state from `of_size C`: the slot count stays
`C`; the duplicate-free, in-bounds free list never exceeds `C` entries, so
at most `C` slots are live at once; a popped index leaves the free list, so
`get_available` cannot return it again before the dead-slot scan re-inserts
it; an exhausted free list makes `get_available` yield `none` and leave the
pool unchanged rather than grow it; and the index of a dead slot is never pushed
while already present — the free list stays duplicate-free. -/
theorem get_available_some_mem {p : ParticlePool} {i : Nat}
    (hi : p.get_available.1 = some i) : i ∈ p.free := by
  unfold ParticlePool.get_available at hi
  cases hl : p.free.getLast? with
  | none => rw [hl] at hi; exact Option.noConfusion hi
  | some idx =>
      rw [hl] at hi
      have hne : p.free ≠ [] := by
        intro he; rw [he] at hl; exact Option.noConfusion hl
      have := List.getLast?_eq_getLast_of_ne_nil hne
      rw [hl] at this
      rw [← Option.some.inj hi, Option.some.inj this]
      exact List.getLast_mem hne

theorem reachable_pool_no_double_acquire {C : Nat} {em : ParticleEmitter}
    (h : EmitterReach C em) :
    em.particles.particles.length = C
    ∧ em.particles.free.length ≤ C
    ∧ (∀ i, em.particles.get_available.1 = some i →
        i ∈ em.particles.free ∧ i ∉ em.particles.get_available.2.free)
    ∧ (em.particles.free = [] →
        em.particles.get_available = (Option.none, em.particles))
    ∧ em.particles.free.Nodup := by
  obtain ⟨hlen, hinit, hnd, hb⟩ := reach_poolInv h
  refine ⟨hlen, ?_, ?_, (get_available_none_iff em.particles).2, hnd⟩
  · calc em.particles.free.length
        = em.particles.free.toFinset.card := (List.toFinset_card_of_nodup hnd).symm
      _ ≤ (Finset.range C).card := Finset.card_le_card
          (fun i hi => Finset.mem_range.mpr (hb i (List.mem_toFinset.mp hi)))
      _ = C := Finset.card_range C
  · intro i hi
    exact ⟨get_available_some_mem hi, get_available_popped_not_free hnd hi⟩

/-- Witness for C6 after one pop from the concrete start state of
capacity 2. -/
theorem reachable_pool_no_double_acquire_witness :
    ({ ParticleEmitter.default with particles :=
        ({ ParticleEmitter.default with particles := ParticlePool.of_size 2 }
          : ParticleEmitter).particles.get_available.2 }
        : ParticleEmitter).particles.particles.length = 2
    ∧ ({ ParticleEmitter.default with particles :=
        ({ ParticleEmitter.default with particles := ParticlePool.of_size 2 }
          : ParticleEmitter).particles.get_available.2 }
        : ParticleEmitter).particles.free.length ≤ 2
    ∧ (∀ i, ({ ParticleEmitter.default with particles :=
        ({ ParticleEmitter.default with particles := ParticlePool.of_size 2 }
          : ParticleEmitter).particles.get_available.2 }
        : ParticleEmitter).particles.get_available.1 = some i →
      i ∈ ({ ParticleEmitter.default with particles :=
        ({ ParticleEmitter.default with particles := ParticlePool.of_size 2 }
          : ParticleEmitter).particles.get_available.2 }
        : ParticleEmitter).particles.free
      ∧ i ∉ ({ ParticleEmitter.default with particles :=
        ({ ParticleEmitter.default with particles := ParticlePool.of_size 2 }
          : ParticleEmitter).particles.get_available.2 }
        : ParticleEmitter).particles.get_available.2.free)
    ∧ (({ ParticleEmitter.default with particles :=
        ({ ParticleEmitter.default with particles := ParticlePool.of_size 2 }
          : ParticleEmitter).particles.get_available.2 }
        : ParticleEmitter).particles.free = [] →
      ({ ParticleEmitter.default with particles :=
        ({ ParticleEmitter.default with particles := ParticlePool.of_size 2 }
          : ParticleEmitter).particles.get_available.2 }
        : ParticleEmitter).particles.get_available
        = (Option.none, ({ ParticleEmitter.default with particles :=
            ({ ParticleEmitter.default with particles := ParticlePool.of_size 2 }
              : ParticleEmitter).particles.get_available.2 }
            : ParticleEmitter).particles))
    ∧ ({ ParticleEmitter.default with particles :=
        ({ ParticleEmitter.default with particles := ParticlePool.of_size 2 }
          : ParticleEmitter).particles.get_available.2 }
        : ParticleEmitter).particles.free.Nodup :=
  reachable_pool_no_double_acquire
    (EmitterReach.getAvail (EmitterReach.start (C := 2) ParticleEmitter.default))

/-! ### Pool sizing (claim C7) -/

/-- C7 counterexample: the claim says the pool of a burst-mode emitter is sized
to one slot; a burst emitter with rate 2 gets `ceil(2) * 1 = 2` slots. -/
theorem init_pool_burst_two_slots_not_one :
    ({ ParticleEmitter.default with burst := true, particle_number := 2 }
      : ParticleEmitter).init_pool.particles.particles.length = 2
    ∧ ({ ParticleEmitter.default with burst := true, particle_number := 2 }
      : ParticleEmitter).init_pool.particles.particles.length ≠ 1 := by
  constructor
  · rfl
  · decide

/-- C7 amended: `init_pool` sizes the pool to `ceil(rate)` (the `as usize`
cast saturating at zero) times the number of frames needed to cover one
particle lifetime — `particle_life + 1` in non-burst mode and `1` in burst
mode, so a burst emitter gets `ceil(rate)` slots, not one — with a full
free list and the initialized flag set (first conjunct); an `update` call
on a not-yet-initialized pool performs exactly this sizing first, so the
slot count after the call equals the same product (second conjunct). -/
theorem init_pool_sizes_rate_times_lifetime_frames (em : ParticleEmitter)
    (position : Vector2f) (dt : ℚ) (samples : Nat → SpawnSample)
    (hinit : em.particles.init = false) :
    em.init_pool.particles
      = ParticlePool.of_size (em.particle_number.ceil.toNat
          * (if em.burst then 1 else em.particle_life + 1))
    ∧ (em.update position dt samples).1.particles.particles.length
      = em.particle_number.ceil.toNat
          * (if em.burst then 1 else em.particle_life + 1) := by
  constructor
  · rfl
  · unfold ParticleEmitter.update
    rw [hinit]
    simp only [Bool.not_false, if_true]
    have h0 : PoolInv (em.particle_number.ceil.toNat
        * (if em.burst then 1 else em.particle_life + 1))
        ({ em.init_pool with nb_accumulator :=
            em.init_pool.nb_accumulator + em.init_pool.particle_number }
          : ParticleEmitter).particles := by
      show PoolInv _ em.init_pool.particles
      rw [show em.init_pool.particles
          = ParticlePool.of_size (em.particle_number.ceil.toNat
              * (if em.burst then 1 else em.particle_life + 1)) from rfl]
      exact poolInv_of_size _
    exact (@phases_poolInv _
      { em.init_pool with nb_accumulator :=
          em.init_pool.nb_accumulator + em.init_pool.particle_number }
      h0 position dt samples).1

/-- Witness for the amended C7 theorem at the default emitter (uninitialized
pool, rate 1, lifetime 10, non-burst): eleven slots. -/
theorem init_pool_sizes_rate_times_lifetime_frames_witness :
    ParticleEmitter.default.init_pool.particles
      = ParticlePool.of_size (ParticleEmitter.default.particle_number.ceil.toNat
          * (if ParticleEmitter.default.burst then 1
             else ParticleEmitter.default.particle_life + 1))
    ∧ (ParticleEmitter.default.update (0, 0) 1
          (fun _ => ⟨0, 1, 0, 1, 1, 1, 0⟩)).1.particles.particles.length
      = ParticleEmitter.default.particle_number.ceil.toNat
          * (if ParticleEmitter.default.burst then 1
             else ParticleEmitter.default.particle_life + 1) :=
  init_pool_sizes_rate_times_lifetime_frames ParticleEmitter.default
    (0, 0) 1 (fun _ => ⟨0, 1, 0, 1, 1, 1, 0⟩) rfl

/-! ### Burst lifecycle (claim C8) -/

theorem scanPhase_burst (em3 : ParticleEmitter) (dt : ℚ) :
    (scanPhase em3 dt).burst = em3.burst := rfl

theorem scanPhase_enabled (em3 : ParticleEmitter) (dt : ℚ) :
    (scanPhase em3 dt).enabled = em3.enabled := rfl

theorem scanPhase_particles (em3 : ParticleEmitter) (dt : ℚ) :
    (scanPhase em3 dt).particles
      = { particles := (scanDead dt em3.particles.particles 0 em3.particles.free).1,
          free := (scanDead dt em3.particles.particles 0 em3.particles.free).2,
          init := em3.particles.init } := rfl

/-- C8: in burst mode `update` disables emission before returning, whatever
else happened this call (first conjunct), and `update` never re-enables a
disabled emitter (second conjunct); a disabled emitter spawns nothing — its
pool is exactly the dead-slot scan of the (lazily initialized) incoming
pool (third conjunct); and the call returns `false` — requesting deletion
of the owning entity — exactly when the emitter is in burst mode and, after
the scan, every slot is back on the free list; in every other case,
non-burst or burst with a slot still out, it returns `true` (fourth
conjunct). -/
theorem update_burst_disables_and_requests_deletion_when_drained
    (em0 : ParticleEmitter) (position : Vector2f) (dt : ℚ)
    (samples : Nat → SpawnSample) :
    (em0.burst = true → (em0.update position dt samples).1.enabled = false)
    ∧ (em0.enabled = false → (em0.update position dt samples).1.enabled = false)
    ∧ (em0.enabled = false →
        (em0.update position dt samples).1.particles
          = { particles := (scanDead dt
                (if !em0.particles.init then em0.init_pool else em0).particles.particles 0
                (if !em0.particles.init then em0.init_pool else em0).particles.free).1,
              free := (scanDead dt
                (if !em0.particles.init then em0.init_pool else em0).particles.particles 0
                (if !em0.particles.init then em0.init_pool else em0).particles.free).2,
              init := (if !em0.particles.init then em0.init_pool else em0).particles.init })
    ∧ ((em0.update position dt samples).2 = false
        ↔ (em0.burst = true
           ∧ (em0.update position dt samples).1.particles.all_dead = true)) := by
  have hem1burst : (if !em0.particles.init then em0.init_pool else em0).burst
      = em0.burst := by
    cases hi : em0.particles.init <;> simp [hi, ParticleEmitter.init_pool]
  have hem1enabled : (if !em0.particles.init then em0.init_pool else em0).enabled
      = em0.enabled := by
    cases hi : em0.particles.init <;> simp [hi, ParticleEmitter.init_pool]
  set em1 := if !em0.particles.init then em0.init_pool else em0 with hem1
  set em2 : ParticleEmitter :=
    { em1 with nb_accumulator := em1.nb_accumulator + em1.particle_number } with hem2
  set em4 := scanPhase (emitPhase em2 position samples) dt with hem4
  have hup : em0.update position dt samples = burstPhase em4 := rfl
  have hb4 : em4.burst = em0.burst := by
    rw [hem4, scanPhase_burst, emitPhase_burst]
    exact hem1burst
  have he4 : em4.enabled = em0.enabled := by
    rw [hem4, scanPhase_enabled, emitPhase_enabled]
    exact hem1enabled
  have hfst_enabled : (burstPhase em4).1.enabled
      = if em4.burst = true then false else em4.enabled := by
    rw [burstPhase_spec]
    cases hb : em4.burst <;> simp [hb]
  have hsnd : (burstPhase em4).2 = !(em4.burst && em4.particles.all_dead) := by
    rw [burstPhase_spec]
  refine ⟨?_, ?_, ?_, ?_⟩
  · intro hb
    rw [hup, hfst_enabled, hb4, hb]
    simp
  · intro he
    rw [hup, hfst_enabled]
    cases hbb : em4.burst
    · simp [he4, he]
    · simp
  · intro he
    have hemp : (emitPhase em2 position samples).particles = em2.particles :=
      emitPhase_particles_disabled em2 position samples
        (by rw [hem2]; show em1.enabled = false; rw [hem1enabled]; exact he)
    rw [hup, burstPhase_fst_particles, hem4, scanPhase_particles, hemp]
  · rw [hup, hsnd, burstPhase_fst_particles, hb4]
    cases hb : em0.burst
    · simp
    · cases hd : em4.particles.all_dead <;> simp [hd]

/-- Witness for C8 at a concrete burst emitter: emission is disabled by the
first call, and the returned flag is `false` exactly when the post-scan
pool is fully drained. -/
theorem update_burst_disables_witness :
    (({ ParticleEmitter.default with burst := true } : ParticleEmitter).update
        (0, 0) 1 (fun _ => ⟨0, 1, 0, 1, 1, 1, 0⟩)).1.enabled = false
    ∧ ((({ ParticleEmitter.default with burst := true } : ParticleEmitter).update
          (0, 0) 1 (fun _ => ⟨0, 1, 0, 1, 1, 1, 0⟩)).2 = false
        ↔ (({ ParticleEmitter.default with burst := true }
              : ParticleEmitter).burst = true
           ∧ (({ ParticleEmitter.default with burst := true }
                : ParticleEmitter).update (0, 0) 1
                (fun _ => ⟨0, 1, 0, 1, 1, 1, 0⟩)).1.particles.all_dead = true)) :=
  ⟨(update_burst_disables_and_requests_deletion_when_drained
      { ParticleEmitter.default with burst := true } (0, 0) 1
      (fun _ => ⟨0, 1, 0, 1, 1, 1, 0⟩)).1 rfl,
   (update_burst_disables_and_requests_deletion_when_drained
      { ParticleEmitter.default with burst := true } (0, 0) 1
      (fun _ => ⟨0, 1, 0, 1, 1, 1, 0⟩)).2.2.2⟩

end Snoozeng
